import Mathlib

/-!
Shallow embedding of the core pipeline of the Manorama news scraper
(`manorama_scraper.py` and `merge_data.py`): the selector-resolution logic
of the field extractors, the location normalizer, the engagement scorer,
the read-time estimator, the per-run collection caps and the cross-run
merge/deduplication.  Pure computations (scoring, rounding, string
scanning) are translated directly; the document side of an extractor is
modelled as the list of per-selector lookup results (`none` when the
selector matched no element), which is exactly the information the Python
code consumes from BeautifulSoup.  Python floats are modelled as exact
rationals and Python `round` (banker's rounding) as `pyRound`.
-/

namespace Scraper

/-! ### String helpers

Python primitives used by the scraper: `str.lower`, `str.strip`,
substring test (`in`), `str.replace(',', '')`, and whitespace word
splitting (`str.split()` / word counting). -/

/-- Python `str.lower` (ASCII behaviour, which is all the scraper feeds it). -/
def toLowerStr (s : String) : String := ⟨s.data.map Char.toLower⟩

/-- Python `str.strip`: drop whitespace from both ends. -/
def trimStr (s : String) : String :=
  ⟨((s.data.dropWhile Char.isWhitespace).reverse.dropWhile Char.isWhitespace).reverse⟩

/-- Substring occurrence on character lists (Python's `needle in hay`). -/
def infixB (p : List Char) : List Char → Bool
  | [] => p.isEmpty
  | c :: t => p.isPrefixOf (c :: t) || infixB p t

/-- Python `needle in hay` on strings. -/
def isSubstr (needle hay : String) : Bool := infixB needle.data hay.data

/-- Python `s.replace(',', '')`. -/
def stripCommas (s : String) : String := ⟨s.data.filter (fun c => c ≠ ',')⟩

/-- Word counter for Python `len(s.split())`: number of maximal runs of
non-whitespace characters.  The flag records whether we are inside a run. -/
def wordCountAux : List Char → Bool → Nat
  | [], _ => 0
  | c :: rest, inWord =>
    if c.isWhitespace then wordCountAux rest false
    else (if inWord then 0 else 1) + wordCountAux rest true

/-- `len(s.split())` in Python. -/
def wordCount (s : String) : Nat := wordCountAux s.data false

/-! ### Rounding (Python `round`)

Python's `round` rounds half to even ("banker's rounding").  The scraper
uses it in `calculate_read_time` (`round(word_count / wpm)`) and in
`calculate_engagement_score` (`round(..., 2)`). -/

/-- Python `round(q)` on an exact rational: nearest integer, ties to even. -/
def pyRound (q : ℚ) : ℤ :=
  if q - ⌊q⌋ < 1/2 then ⌊q⌋
  else if 1/2 < q - ⌊q⌋ then ⌊q⌋ + 1
  else if ⌊q⌋ % 2 = 0 then ⌊q⌋ else ⌊q⌋ + 1

/-- Python `round(q, 2)`: round to two decimal places, ties to even. -/
def pyRound2 (q : ℚ) : ℚ := (pyRound (q * 100) : ℚ) / 100

/-! ### Engagement scorer and read-time estimator
(`ManoramaScraper.calculate_engagement_score`,
 `ManoramaScraper.calculate_read_time`) -/

/-- `ManoramaScraper.calculate_engagement_score`: weighted interaction rate,
capped at 100 and rounded to two decimals; zero views short-circuits to 0. -/
def calculate_engagement_score (views comments likes shares : ℕ) : ℚ :=
  if views = 0 then 0
  else
    pyRound2 (min
      (((comments : ℚ) * (4/10) + (likes : ℚ) * (3/10) + (shares : ℚ) * (3/10))
        / (views : ℚ) * 100)
      100)

/-- The spec's wording for the engagement score: `raw = (comments*0.4 +
likes*0.3 + shares*0.3) / views * 100`; result `min(raw, 100.0)` rounded to
2 decimal places, and exactly `0.0` when `views == 0`. -/
def engagementScoreSpec (views comments likes shares : ℕ) : ℚ :=
  if views = 0 then 0
  else
    let raw : ℚ :=
      ((comments : ℚ) * (4/10) + (likes : ℚ) * (3/10) + (shares : ℚ) * (3/10))
        / (views : ℚ) * 100
    pyRound2 (min raw 100)

/-- `ManoramaScraper.calculate_read_time`: `max(1, round(word_count / wpm))`.
The Python default argument is `wpm = 200`; callers here pass it explicitly. -/
def calculate_read_time (word_count wpm : ℕ) : ℤ :=
  max 1 (pyRound ((word_count : ℚ) / (wpm : ℚ)))

/-! ### Location normalizer
(`ManoramaScraper.location_mapping`, `ManoramaScraper.extract_location`) -/

/-- `ManoramaScraper.location_mapping` in the Python dict's insertion order
(iteration order of `.items()`). -/
def location_mapping : List (String × String) :=
  [("thiruvananthapuram", "Kerala/Thiruvananthapuram"),
   ("kochi", "Kerala/Ernakulam"),
   ("kozhikode", "Kerala/Kozhikode"),
   ("thrissur", "Kerala/Thrissur"),
   ("kollam", "Kerala/Kollam"),
   ("alappuzha", "Kerala/Alappuzha"),
   ("palakkad", "Kerala/Palakkad"),
   ("malappuram", "Kerala/Malappuram"),
   ("kannur", "Kerala/Kannur"),
   ("kasargod", "Kerala/Kasargod"),
   ("kerala", "Kerala/General"),
   ("india", "India/National"),
   ("world", "International"),
   ("gulf", "International/Gulf")]

/-- Inner keyword scan of `extract_location`: first mapping entry whose key
occurs as a substring of the (already lower-cased) text. -/
def findLoc (txt : String) : Option String :=
  (location_mapping.find? (fun kv => isSubstr kv.1 txt)).map (fun kv => kv.2)

/-- `self.location_mapping.get(category, 'Kerala/General')`. -/
def locDefault (cat : String) : String :=
  ((location_mapping.find? (fun kv => kv.1 == cat)).map (fun kv => kv.2)).getD
    "Kerala/General"

/-- `ManoramaScraper.extract_location`: the list holds the per-selector
lookup results (`none` = selector matched no element).  A matched element
whose text contains no mapping keyword falls through to the next selector;
if nothing matches, the category default is returned. -/
def extract_location (cat : String) : List (Option String) → String
  | [] => locDefault cat
  | none :: rest => extract_location cat rest
  | some t :: rest =>
    match findLoc (toLowerStr (trimStr t)) with
    | some v => v
    | none => extract_location cat rest

/-- The spec's `normalize(freeText, category)`: lower-case the text, return
the canonical value of the first keyword of the priority-ordered mapping
found as a substring, else the category's default from the same mapping,
defaulting to `"Kerala/General"`. -/
def normalize (txt cat : String) : String :=
  (findLoc (toLowerStr txt)).getD (locDefault cat)

/-! ### Date-pattern parser (`ManoramaScraper.parse_date_string`)

The Python code `re.search`-es three patterns over the free-text date and,
on a match, returns `datetime.now().isoformat()` ("Simplified for now");
with no match, or on an exception, it returns the same current timestamp.
The current time is passed in as `now`.  The three regexes
`(\d{1,2})[\/\-](\d{1,2})[\/\-](\d{4})`, `(\d{4})[\/\-](\d{1,2})[\/\-](\d{1,2})`
and `(\d{1,2})\s+(\w+)\s+(\d{4})` are embedded as backtracking matchers in
continuation style; `X+` runs are consumed maximally, which agrees with the
regex because each `\s+`/`\w+` is followed by a disjoint character class. -/

def isSepChar (c : Char) : Bool := c = '/' || c = '-'

/-- Consume exactly `n` digits. -/
def takeDigits : ℕ → List Char → Option (List Char)
  | 0, l => some l
  | _ + 1, [] => none
  | n + 1, c :: l => if c.isDigit then takeDigits n l else none

/-- `\d{1,2}` followed by the continuation `k` (greedy with backtracking). -/
def oneTwoDigits (l : List Char) (k : List Char → Bool) : Bool :=
  (match takeDigits 2 l with | some r => k r | none => false) ||
  (match takeDigits 1 l with | some r => k r | none => false)

/-- `[\/\-]` followed by the continuation `k`. -/
def sepThen (l : List Char) (k : List Char → Bool) : Bool :=
  match l with
  | c :: r => isSepChar c && k r
  | [] => false

/-- `\d{4}` followed by the continuation `k`. -/
def fourThen (l : List Char) (k : List Char → Bool) : Bool :=
  match takeDigits 4 l with | some r => k r | none => false

/-- A maximal nonempty run of characters satisfying `p`, then `k`. -/
def plusRun (p : Char → Bool) (l : List Char) (k : List Char → Bool) : Bool :=
  match l with
  | c :: r => p c && k (r.dropWhile p)
  | [] => false

/-- Python `\w` (ASCII behaviour). -/
def isWordChar (c : Char) : Bool := c.isAlphanum || c = '_'

/-- `(\d{1,2})[\/\-](\d{1,2})[\/\-](\d{4})` anchored at the head. -/
def matchP1 (l : List Char) : Bool :=
  oneTwoDigits l fun l1 => sepThen l1 fun l2 =>
    oneTwoDigits l2 fun l3 => sepThen l3 fun l4 =>
      fourThen l4 fun _ => true

/-- `(\d{4})[\/\-](\d{1,2})[\/\-](\d{1,2})` anchored at the head. -/
def matchP2 (l : List Char) : Bool :=
  fourThen l fun l1 => sepThen l1 fun l2 =>
    oneTwoDigits l2 fun l3 => sepThen l3 fun l4 =>
      oneTwoDigits l4 fun _ => true

/-- `(\d{1,2})\s+(\w+)\s+(\d{4})` anchored at the head. -/
def matchP3 (l : List Char) : Bool :=
  oneTwoDigits l fun l1 => plusRun (fun c => c.isWhitespace) l1 fun l2 =>
    plusRun isWordChar l2 fun l3 => plusRun (fun c => c.isWhitespace) l3 fun l4 =>
      fourThen l4 fun _ => true

/-- `re.search`: try the anchored matcher at every position. -/
def searchP (f : List Char → Bool) : List Char → Bool
  | [] => f []
  | c :: t => f (c :: t) || searchP f t

/-- Does any of the three date patterns occur in the string? -/
def hasDatePattern (s : String) : Bool :=
  searchP matchP1 s.data || searchP matchP2 s.data || searchP matchP3 s.data

/-- `ManoramaScraper.parse_date_string`: whether or not a pattern matches,
the matched groups are discarded and the current timestamp is returned. -/
def parse_date_string (now s : String) : String :=
  if hasDatePattern s then now else now

/-! ### Count extractors
(`ManoramaScraper.extract_views` / `extract_comments` / `extract_likes` /
`extract_shares`) -/

/-- A document element as the count extractors see it: its text content
(`get_text()`) and its structured count attribute (`data-views` etc.;
`""` both for an absent and for an empty attribute, which Python's
`element.get('data-*', '')` followed by `or` treats identically). -/
structure CountElem where
  text : String
  attr : String
  deriving Repr, DecidableEq

/-- `element.get_text() or element.get('data-*', '')`: Python `or` yields
its first truthy (non-empty) operand, so the scraped text is used whenever
it is non-empty and the structured attribute only as a fallback. -/
def elemRaw (e : CountElem) : String := if e.text = "" then e.attr else e.text

/-- First maximal digit run of a character list (`re.search(r'(\d+)', ...)`). -/
def firstDigitRun : List Char → Option (List Char)
  | [] => none
  | c :: rest =>
    if c.isDigit then some (c :: rest.takeWhile Char.isDigit)
    else firstDigitRun rest

/-- `int` of a digit run. -/
def digitsToNat (l : List Char) : ℕ := l.foldl (fun n c => 10 * n + (c.toNat - 48)) 0

/-- `re.search(r'(\d+)', s.replace(',', ''))` followed by `int(group(1))`. -/
def parseCount (s : String) : Option ℕ :=
  (firstDigitRun (stripCommas s).data).map digitsToNat

/-- The selector loop shared by the four count extractors: per selector,
`none` means no element matched; a matched element whose combined text/attr
value contains no digits falls through to the next selector. -/
def extractCount : List (Option CountElem) → Option ℕ
  | [] => none
  | none :: rest => extractCount rest
  | some e :: rest =>
    match parseCount (elemRaw e) with
    | some n => some n
    | none => extractCount rest

/-- `ManoramaScraper.extract_views`; `fallback` stands for the simulated
`random.randint(100, 50000)` draw used when no selector resolves. -/
def extract_views (cands : List (Option CountElem)) (fallback : ℕ) : ℕ :=
  (extractCount cands).getD fallback

/-- `ManoramaScraper.extract_comments` (fallback `random.randint(0, 200)`). -/
def extract_comments (cands : List (Option CountElem)) (fallback : ℕ) : ℕ :=
  (extractCount cands).getD fallback

/-- `ManoramaScraper.extract_likes` (fallback `random.randint(0, 1000)`). -/
def extract_likes (cands : List (Option CountElem)) (fallback : ℕ) : ℕ :=
  (extractCount cands).getD fallback

/-- `ManoramaScraper.extract_shares` (fallback `random.randint(0, 500)`). -/
def extract_shares (cands : List (Option CountElem)) (fallback : ℕ) : ℕ :=
  (extractCount cands).getD fallback

/-! ### Headline, date and content-length extractors
(`ManoramaScraper.extract_headline`, `extract_date`,
 `extract_content_length`) -/

/-- `ManoramaScraper.extract_headline`: first selector whose element has
non-empty stripped text; `""` when none does. -/
def extract_headline : List (Option String) → String
  | [] => ""
  | none :: rest => extract_headline rest
  | some t :: rest => if trimStr t = "" then extract_headline rest else trimStr t

/-- A date element: its `datetime` attribute, `data-date` attribute and text
content (`""` stands both for an absent and for an empty value, which the
Python truthiness tests treat identically). -/
structure DateElem where
  datetimeAttr : String
  dataDate : String
  text : String
  deriving Repr, DecidableEq

/-- One date element as `extract_date` reads it: the `datetime` attribute,
then `data-date`, then the stripped text run through the date parser; `none`
when all three are empty (the selector loop then continues). -/
def dateFromElem (now : String) (e : DateElem) : Option String :=
  if e.datetimeAttr ≠ "" then some e.datetimeAttr
  else if e.dataDate ≠ "" then some e.dataDate
  else if trimStr e.text ≠ "" then some (parse_date_string now (trimStr e.text))
  else none

/-- `ManoramaScraper.extract_date`; falls back to the current timestamp. -/
def extract_date (now : String) : List (Option DateElem) → String
  | [] => now
  | none :: rest => extract_date now rest
  | some e :: rest =>
    match dateFromElem now e with
    | some d => d
    | none => extract_date now rest

/-- First selector that matched an element (the loop `break`s on the first
matched content container even if its text is empty). -/
def firstSome : List (Option String) → Option String
  | [] => none
  | none :: rest => firstSome rest
  | some t :: _ => some t

/-- `ManoramaScraper.extract_content_length`: the first matched container's
text, falling back to all paragraph text joined by spaces whenever that text
is empty; the result is the whitespace-token word count. -/
def extract_content_length (cands : List (Option String)) (paragraphs : List String) : ℕ :=
  wordCount
    (if (firstSome cands).getD "" = ""
     then String.intercalate " " paragraphs
     else (firstSome cands).getD "")

/-! ### Record assembler (`ManoramaScraper.extract_article_data`) -/

/-- The `NewsArticle` dataclass. -/
structure NewsArticle where
  headline : String
  date : String
  location : String
  views : ℕ
  comments : ℕ
  likes : ℕ
  shares : ℕ
  engagement_score : ℚ
  read_minutes : ℤ
  category : String
  url : String
  content_length : ℕ
  deriving Repr, DecidableEq

/-- A parsed article page as the extractors consume it: each field's list
of per-selector lookup results, plus the page's paragraph texts. -/
structure Doc where
  headlineCands : List (Option String)
  dateCands : List (Option DateElem)
  locCands : List (Option String)
  viewsCands : List (Option CountElem)
  commentsCands : List (Option CountElem)
  likesCands : List (Option CountElem)
  sharesCands : List (Option CountElem)
  contentCands : List (Option String)
  paragraphs : List String
  deriving Repr, DecidableEq

/-- The simulated `random.randint` draws the count extractors fall back on. -/
structure Fallbacks where
  views : ℕ
  comments : ℕ
  likes : ℕ
  shares : ℕ
  deriving Repr, DecidableEq

/-- `ManoramaScraper.extract_article_data`: an empty headline aborts the
whole record; every other field resolves to a fallback value instead. -/
def extract_article_data (doc : Doc) (fb : Fallbacks) (now cat url : String) :
    Option NewsArticle :=
  if extract_headline doc.headlineCands = "" then none
  else some {
    headline := extract_headline doc.headlineCands
    date := extract_date now doc.dateCands
    location := extract_location cat doc.locCands
    views := extract_views doc.viewsCands fb.views
    comments := extract_comments doc.commentsCands fb.comments
    likes := extract_likes doc.likesCands fb.likes
    shares := extract_shares doc.sharesCands fb.shares
    engagement_score := calculate_engagement_score
      (extract_views doc.viewsCands fb.views)
      (extract_comments doc.commentsCands fb.comments)
      (extract_likes doc.likesCands fb.likes)
      (extract_shares doc.sharesCands fb.shares)
    read_minutes := calculate_read_time
      (extract_content_length doc.contentCands doc.paragraphs) 200
    category := cat
    url := url
    content_length := extract_content_length doc.contentCands doc.paragraphs }

/-! ### Collection caps (`ManoramaScraper.scrape_all_categories`)

The per-category link loop of `scrape_all_categories` is modelled over the
per-link extraction results (`none` = the article was rejected or failed);
a category's links arrive as a list that `extract_article_links` has already
capped with `[:max_articles // len(categories)]`, modelled by `List.take`. -/

/-- `if article: all_articles.append(article)`. -/
def appendArt {α : Type} (o : Option α) (acc : List α) : List α :=
  match o with
  | some a => acc ++ [a]
  | none => acc

/-- The inner `for link in article_links` loop: append each successful
article, and `break` as soon as the accumulated count reaches the cap. -/
def scrapeLinks {α : Type} (maxA : ℕ) : List (Option α) → List α → List α
  | [], acc => acc
  | o :: rest, acc =>
    if maxA ≤ (appendArt o acc).length then appendArt o acc
    else scrapeLinks maxA rest (appendArt o acc)

/-- `ManoramaScraper.scrape_all_categories`: iterate the categories, feeding
each capped link list through the inner loop.  `nCats` is
`len(self.categories)`, the divisor of the per-category cap; the Python
`break` leaves only the inner loop, so the outer loop always continues with
the next category. -/
def scrape_all_categories {α : Type} (maxA nCats : ℕ) :
    List (List (Option α)) → List α → List α
  | [], acc => acc
  | cat :: rest, acc =>
    scrape_all_categories maxA nCats rest
      (scrapeLinks maxA (cat.take (maxA / nCats)) acc)

/-- The spec's wording of the cycle: the whole collection terminates as soon
as the accumulated record count reaches the cap, even mid-category (no
further category is entered once `maxA` records are held). -/
def scrapeAllSpec {α : Type} (maxA nCats : ℕ) :
    List (List (Option α)) → List α → List α
  | [], acc => acc
  | cat :: rest, acc =>
    if maxA ≤ acc.length then acc
    else scrapeAllSpec maxA nCats rest
      (scrapeLinks maxA (cat.take (maxA / nCats)) acc)

/-! ### Merge / deduplication (`merge_data.merge_csv_files`) -/

/-- One persisted CSV row (only the dedup-relevant fields are named; `content`
stands for the remaining payload columns). -/
structure Row where
  headline : String
  date : String
  content : String
  deriving Repr, DecidableEq

/-- A row after `df['source_file'] = os.path.basename(file)`. -/
structure TaggedRow where
  headline : String
  date : String
  content : String
  source_file : String
  deriving Repr, DecidableEq

/-- Tag every row of one input file with its provenance. -/
def tagRows (src : String) (rows : List Row) : List TaggedRow :=
  rows.map (fun r => TaggedRow.mk r.headline r.date r.content src)

/-- The composite dedup key `subset=['headline', 'date']`. -/
def dkey (r : TaggedRow) : String × String := (r.headline, r.date)

/-- `drop_duplicates(..., keep='first')`: keep a row iff its key was not
seen earlier. -/
def dedupAux : List (String × String) → List TaggedRow → List TaggedRow
  | _, [] => []
  | seen, r :: rest =>
    if dkey r ∈ seen then dedupAux seen rest
    else r :: dedupAux (dkey r :: seen) rest

/-- `merged_df.drop_duplicates(subset=['headline', 'date'], keep='first')`. -/
def drop_duplicates (l : List TaggedRow) : List TaggedRow := dedupAux [] l

/-- `pd.concat(dfs)` after tagging: all rows in file-enumeration order. -/
def allRows (files : List (String × List Row)) : List TaggedRow :=
  (files.map (fun f => tagRows f.1 f.2)).flatten

/-- `merge_data.merge_csv_files` on already-loaded datasets: `none` models
the early return when there is no input file. -/
def merge_csv_files (files : List (String × List Row)) : Option (List TaggedRow) :=
  if files.isEmpty then none
  else some (drop_duplicates (allRows files))

/-! ### Link extraction (`ManoramaScraper.extract_article_links`,
`ManoramaScraper.is_valid_article_url`) -/

/-- `ManoramaScraper.is_valid_article_url`'s blocked substrings. -/
def invalid_patterns : List String :=
  ["javascript:", "mailto:", "tel:", "#",
   "facebook.com", "twitter.com", "instagram.com",
   "youtube.com", "whatsapp.com"]

/-- `ManoramaScraper.is_valid_article_url`: no blocked substring occurs in
the lower-cased URL. -/
def is_valid_article_url (url : String) : Bool :=
  ! invalid_patterns.any (fun p => isSubstr p (toLowerStr url))

/-- The scraper's default `base_url`. -/
def base_url : String := "https://www.manoramaonline.com"

/-- Modelled from the Python standard library's `urllib.parse.urljoin`,
specialised to how the scraper uses it: the base is a scheme://host URL with
no trailing slash, so an href that itself carries a scheme marker is
returned unchanged and any other href is appended to the base (with a `/`
separator when the href is not root-relative).  RFC 3986 dot-segment
normalisation and the rarer resolution cases are not modelled; they never
introduce characters absent from base and href. -/
def urljoin (base href : String) : String :=
  if isSubstr "://" href then href
  else if href.data.head? = some '/' then base ++ href
  else base ++ "/" ++ href

/-- The selector loop of `extract_article_links` flattened to the candidate
hrefs it visits (`none` = an anchor without an `href`): each valid href is
joined with the base and appended unless the joined URL is already present. -/
def collectLinks : List (Option String) → List String → List String
  | [], acc => acc
  | none :: rest, acc => collectLinks rest acc
  | some href :: rest, acc =>
    if is_valid_article_url href then
      collectLinks rest
        (if urljoin base_url href ∈ acc then acc else acc ++ [urljoin base_url href])
    else collectLinks rest acc

/-- `ManoramaScraper.extract_article_links`: collected links truncated to
`max_articles // len(categories)`. -/
def extract_article_links (maxA nCats : ℕ) (hrefs : List (Option String)) : List String :=
  (collectLinks hrefs []).take (maxA / nCats)

/-- Decidable certificate that prepending `A` can never create a new
occurrence of `p`: `p` does not occur in `A`, and no proper non-empty
prefix of `p` is a suffix of `A` (no occurrence can straddle the seam). -/
def noCross (p A : List Char) : Bool :=
  ! infixB p A &&
    (List.range p.length).all (fun k => k == 0 || ! (p.take k).isSuffixOf A)

end Scraper

namespace Scraper

/-! ## Theorems -/

theorem infixB_iff (p : List Char) : ∀ l, infixB p l = true ↔ p <:+: l := by
  intro l
  induction l with
  | nil =>
    simp [infixB, List.isEmpty_iff]
  | cons c t ih =>
    simp only [infixB, Bool.or_eq_true, List.isPrefixOf_iff_prefix, ih,
      List.infix_cons_iff]

theorem pyRound_ge_floor (q : ℚ) : ⌊q⌋ ≤ pyRound q := by
  unfold pyRound
  split
  · exact le_refl _
  · split
    · exact le_of_lt (lt_add_one _)
    · split
      · exact le_refl _
      · exact le_of_lt (lt_add_one _)

theorem pyRound_nonneg {q : ℚ} (h : 0 ≤ q) : 0 ≤ pyRound q :=
  le_trans (Int.floor_nonneg.mpr h) (pyRound_ge_floor q)

theorem pyRound_le_int {q : ℚ} {n : ℤ} (h : q ≤ (n : ℚ)) : pyRound q ≤ n := by
  have hfl : ⌊q⌋ ≤ n := by
    have := Int.floor_le_floor (α := ℚ) h
    simpa using this
  unfold pyRound
  split
  · exact hfl
  · rename_i h1
    split
    · rename_i h2
      -- `q - ⌊q⌋ > 1/2`, so `⌊q⌋ < n` and `⌊q⌋ + 1 ≤ n`
      rcases lt_or_eq_of_le hfl with hlt | heq
      · exact hlt
      · exfalso
        have hq : ((n : ℚ)) + 1/2 < q := by
          have : ((⌊q⌋ : ℚ)) + 1/2 < q := by linarith
          rwa [heq] at this
        have : (n : ℚ) < q := by linarith
        linarith [h]
    · rename_i h2
      have heq2 : q - (⌊q⌋ : ℚ) = 1/2 := le_antisymm (le_of_not_lt h2) (le_of_not_lt h1)
      split
      · exact hfl
      · rcases lt_or_eq_of_le hfl with hlt | heq
        · exact hlt
        · exfalso
          have hq : q = (n : ℚ) + 1/2 := by
            rw [← heq]; linarith
          rw [hq] at h
          linarith

theorem pyRound2_nonneg {q : ℚ} (h : 0 ≤ q) : 0 ≤ pyRound2 q := by
  unfold pyRound2
  have : (0 : ℤ) ≤ pyRound (q * 100) := pyRound_nonneg (by positivity)
  have : (0 : ℚ) ≤ (pyRound (q * 100) : ℚ) := by exact_mod_cast this
  linarith

theorem pyRound2_le_100 {q : ℚ} (h : q ≤ 100) : pyRound2 q ≤ 100 := by
  unfold pyRound2
  have hb : pyRound (q * 100) ≤ (10000 : ℤ) := by
    apply pyRound_le_int
    push_cast
    linarith
  have : (pyRound (q * 100) : ℚ) ≤ 10000 := by exact_mod_cast hb
  linarith

/-- C1: the engagement score is always within `[0, 100]`; it is exactly `0`
whenever `views = 0`; and otherwise it equals
`min((comments*0.4 + likes*0.3 + shares*0.3)/views * 100, 100)` rounded to two
decimal places — i.e. the code agrees with the spec's formula everywhere. -/
theorem C1_engagement_score_spec (v c l s : ℕ) :
    0 ≤ calculate_engagement_score v c l s ∧
    calculate_engagement_score v c l s ≤ 100 ∧
    calculate_engagement_score 0 c l s = 0 ∧
    calculate_engagement_score v c l s = engagementScoreSpec v c l s := by
  refine ⟨?_, ?_, by simp [calculate_engagement_score], rfl⟩
  · unfold calculate_engagement_score
    split
    · norm_num
    · rename_i hv
      apply pyRound2_nonneg
      apply le_min
      · have hvpos : (0:ℚ) < (v : ℚ) := by
          exact_mod_cast Nat.pos_of_ne_zero hv
        positivity
      · norm_num
  · unfold calculate_engagement_score
    split
    · norm_num
    · exact pyRound2_le_100 (min_le_right _ _)

/-- C9: the read-time estimate is `round(word_count / wpm)` floored at a
minimum of 1; it is at least 1 for every word count, `0` words give 1 minute,
and `400` words at the default 200 wpm give 2 minutes. -/
theorem C9_read_time (wc wpm : ℕ) :
    1 ≤ calculate_read_time wc wpm ∧
    calculate_read_time wc wpm = max 1 (pyRound ((wc : ℚ) / (wpm : ℚ))) ∧
    calculate_read_time 0 200 = 1 ∧
    calculate_read_time 400 200 = 2 := by
  refine ⟨le_max_left _ _, rfl, ?_, ?_⟩
  · norm_num [calculate_read_time, pyRound]
  · norm_num [calculate_read_time, pyRound]

/-- C4: the location normalizer returns the canonical value of the first
keyword of the priority-ordered mapping found as a substring of the
lower-cased text, else the category's default from the same mapping,
defaulting to `"Kerala/General"`; the three quoted examples hold; and
`extract_location` on a document whose location selector matched text `t`
computes exactly `normalize` on the trimmed text. -/
theorem C4_location_normalizer (t c : String) :
    normalize "Kochi city report" "kerala" = "Kerala/Ernakulam" ∧
    normalize "no-location-text" "world" = "International" ∧
    normalize "nonsense" "unknown-category" = "Kerala/General" ∧
    extract_location c [some t] = normalize (trimStr t) c ∧
    (∀ k v, location_mapping.find? (fun kv => isSubstr kv.1 (toLowerStr t)) = some (k, v) →
      normalize t c = v) ∧
    (location_mapping.find? (fun kv => isSubstr kv.1 (toLowerStr t)) = none →
      normalize t c = locDefault c) := by
  refine ⟨by decide, by decide, by decide, ?_, ?_, ?_⟩
  · show (match findLoc (toLowerStr (trimStr t)) with
          | some v => v
          | none => extract_location c []) = normalize (trimStr t) c
    unfold normalize extract_location
    cases findLoc (toLowerStr (trimStr t)) <;> simp
  · intro k v hfind
    unfold normalize findLoc
    rw [hfind]
    simp
  · intro hfind
    unfold normalize findLoc
    rw [hfind]
    simp

/-- C8: `parse_date_string` returns the current timestamp for every input —
even when one of the three supported patterns matches (as witnessed on
concrete inputs for each pattern), the matched groups never influence the
result. -/
theorem C8_date_parser_returns_now (now s : String) :
    parse_date_string now s = now ∧
    hasDatePattern "12/05/2023" = true ∧
    hasDatePattern "2023-05-12" = true ∧
    hasDatePattern "5 May 2023" = true ∧
    hasDatePattern "next week" = false := by
  refine ⟨?_, by decide, by decide, by decide, by decide⟩
  unfold parse_date_string
  split <;> rfl

/-- C3 counterexample: an element carrying both a structured count attribute
(`data-views = "5"`) and text content (`"7"`) makes the extractor return 7,
the value parsed from the text — not 5, the structured attribute's value,
contradicting the claimed attribute preference. -/
theorem C3_counterexample :
    extract_views [some (CountElem.mk "7" "5")] 0 = 7 ∧
    extract_views [some (CountElem.mk "7" "5")] 0 ≠ 5 := by
  constructor
  · decide
  · decide

/-- C3 amended: when a candidate locator matches an element carrying both a
structured count attribute and text content, the extractor takes the value
from the *text content* in preference to the structured attribute; the
attribute is consulted only when the element's text is empty. -/
theorem C3_text_preferred_over_attribute (t a : String)
    (rest : List (Option CountElem)) (fb : ℕ) :
    (t ≠ "" →
      extract_views (some (CountElem.mk t a) :: rest) fb =
        (match parseCount t with
         | some n => n
         | none => extract_views rest fb)) ∧
    (extract_views (some (CountElem.mk "" a) :: rest) fb =
        (match parseCount a with
         | some n => n
         | none => extract_views rest fb)) ∧
    (t ≠ "" →
      extract_likes (some (CountElem.mk t a) :: rest) fb =
        (match parseCount t with
         | some n => n
         | none => extract_likes rest fb)) := by
  have hcons : ∀ (e : CountElem) (r : List (Option CountElem)),
      extractCount (some e :: r) =
        match parseCount (elemRaw e) with
        | some n => some n
        | none => extractCount r := fun _ _ => rfl
  refine ⟨?_, ?_, ?_⟩
  · intro ht
    have he : elemRaw (CountElem.mk t a) = t := by simp [elemRaw, ht]
    simp only [extract_views, hcons, he]
    cases parseCount t <;> simp
  · have he : elemRaw (CountElem.mk "" a) = a := by simp [elemRaw]
    simp only [extract_views, hcons, he]
    cases parseCount a <;> simp
  · intro ht
    have he : elemRaw (CountElem.mk t a) = t := by simp [elemRaw, ht]
    simp only [extract_likes, hcons, he]
    cases parseCount t <;> simp

theorem extract_headline_empty_iff (l : List (Option String)) :
    extract_headline l = "" ↔ ∀ o ∈ l, ∀ t, o = some t → trimStr t = "" := by
  induction l with
  | nil => simp [extract_headline]
  | cons o rest ih =>
    cases o with
    | none => simpa [extract_headline] using ih
    | some t =>
      by_cases ht : trimStr t = ""
      · rw [show extract_headline (some t :: rest) = extract_headline rest from by
          rw [extract_headline, if_pos ht]]
        rw [ih]
        constructor
        · intro hrest o ho u hu
          rcases List.mem_cons.mp ho with rfl | ho'
          · cases hu; exact ht
          · exact hrest o ho' u hu
        · intro hall o ho u hu
          exact hall o (List.mem_cons_of_mem _ ho) u hu
      · rw [show extract_headline (some t :: rest) = trimStr t from by
          rw [extract_headline, if_neg ht]]
        constructor
        · intro h; exact absurd h ht
        · intro hall
          exact absurd (hall (some t) (List.mem_cons_self _ _) t rfl) ht

/-- C7: article extraction yields `none` exactly when the headline resolves
to empty — which happens exactly when every headline selector's text trims
to empty — and the headline is the only field whose absence rejects the
record: a document with a non-empty headline and *no other selector
matching at all* still yields a record. -/
theorem C7_headline_only_rejection (doc : Doc) (fb : Fallbacks)
    (now cat url h : String) :
    (extract_article_data doc fb now cat url = none ↔
      extract_headline doc.headlineCands = "") ∧
    (extract_headline doc.headlineCands = "" ↔
      ∀ o ∈ doc.headlineCands, ∀ t, o = some t → trimStr t = "") ∧
    (extract_article_data (Doc.mk [some h] [] [] [] [] [] [] [] []) fb now cat url
        = none ↔ trimStr h = "") := by
  refine ⟨?_, extract_headline_empty_iff _, ?_⟩
  · by_cases hh : extract_headline doc.headlineCands = "" <;>
      simp [extract_article_data, hh]
  · by_cases hh : trimStr h = "" <;>
      simp [extract_article_data, extract_headline, hh]

theorem scrapeLinks_length_le {α : Type} (maxA : ℕ) (l : List (Option α)) :
    ∀ acc : List α, (scrapeLinks maxA l acc).length ≤ acc.length + l.length := by
  induction l with
  | nil => intro acc; simp [scrapeLinks]
  | cons o rest ih =>
    intro acc
    have happ : (appendArt o acc).length ≤ acc.length + 1 := by
      cases o <;> simp [appendArt]
    rw [scrapeLinks]
    split
    · simpa using happ.trans (by simp)
    · calc (scrapeLinks maxA rest (appendArt o acc)).length
          ≤ (appendArt o acc).length + rest.length := ih _
        _ ≤ acc.length + (o :: rest).length := by simp; omega

theorem scrape_all_length_le {α : Type} (maxA nCats : ℕ)
    (cats : List (List (Option α))) :
    ∀ acc : List α,
      (scrape_all_categories maxA nCats cats acc).length ≤
        acc.length + cats.length * (maxA / nCats) := by
  induction cats with
  | nil => intro acc; simp [scrape_all_categories]
  | cons cat rest ih =>
    intro acc
    rw [scrape_all_categories]
    have h1 := ih (scrapeLinks maxA (cat.take (maxA / nCats)) acc)
    have h2 : (scrapeLinks maxA (cat.take (maxA / nCats)) acc).length ≤
        acc.length + (maxA / nCats) := by
      have := scrapeLinks_length_le maxA (cat.take (maxA / nCats)) acc
      have hlt : (cat.take (maxA / nCats)).length ≤ maxA / nCats := by
        simp [List.length_take]
      omega
    have : (rest.length + 1) * (maxA / nCats)
        = rest.length * (maxA / nCats) + (maxA / nCats) := by ring
    simp only [List.length_cons]
    calc (scrape_all_categories maxA nCats rest
            (scrapeLinks maxA (cat.take (maxA / nCats)) acc)).length
        ≤ (scrapeLinks maxA (cat.take (maxA / nCats)) acc).length
            + rest.length * (maxA / nCats) := h1
      _ ≤ acc.length + (maxA / nCats) + rest.length * (maxA / nCats) := by omega
      _ = acc.length + (rest.length + 1) * (maxA / nCats) := by ring

theorem scrape_all_q_zero {α : Type} (maxA nCats : ℕ) (hq : maxA / nCats = 0)
    (cats : List (List (Option α))) :
    ∀ acc : List α, scrape_all_categories maxA nCats cats acc = acc := by
  induction cats with
  | nil => intro acc; rfl
  | cons cat rest ih =>
    intro acc
    rw [scrape_all_categories, hq]
    simpa [scrapeLinks] using ih acc

theorem scrape_all_eq_spec_aux {α : Type} (maxA nCats : ℕ)
    (hN : nCats * (maxA / nCats) ≤ maxA) (cats : List (List (Option α))) :
    ∀ acc : List α,
      acc.length + cats.length * (maxA / nCats) ≤ nCats * (maxA / nCats) →
      scrape_all_categories maxA nCats cats acc = scrapeAllSpec maxA nCats cats acc := by
  induction cats with
  | nil => intro acc _; rfl
  | cons cat rest ih =>
    intro acc hinv
    by_cases hq : maxA / nCats = 0
    · rw [hq] at hinv
      have hacc : acc.length = 0 := by omega
      by_cases hm : maxA = 0
      · rw [scrapeAllSpec, if_pos (by omega)]
        exact scrape_all_q_zero maxA nCats hq _ acc
      · rw [scrapeAllSpec, if_neg (by omega), scrape_all_categories]
        rw [hq]
        simp only [List.take_zero]
        rw [show scrapeLinks maxA ([] : List (Option α)) acc = acc from rfl]
        exact ih acc (by rw [hq]; omega)
    · have hmul : (rest.length + 1) * (maxA / nCats)
          = rest.length * (maxA / nCats) + (maxA / nCats) := by ring
      simp only [List.length_cons] at hinv
      rw [hmul] at hinv
      have hq1 : 1 ≤ maxA / nCats := Nat.one_le_iff_ne_zero.mpr hq
      have hlt : acc.length < maxA := by omega
      rw [scrapeAllSpec, if_neg (by omega), scrape_all_categories]
      apply ih
      have h2 : (scrapeLinks maxA (cat.take (maxA / nCats)) acc).length ≤
          acc.length + (maxA / nCats) := by
        have := scrapeLinks_length_le maxA (cat.take (maxA / nCats)) acc
        have hlt2 : (cat.take (maxA / nCats)).length ≤ maxA / nCats := by
          simp [List.length_take]
        omega
      omega

/-- C2: starting from an empty accumulator, a collection cycle returns at
most `maxA` records, and its behaviour coincides everywhere with the spec's
early-terminating loop that stops as soon as the accumulated count reaches
`maxA`, even mid-category — so no article beyond the cap is ever produced.
`cats.length` is `len(self.categories)`, the divisor of the per-category
link cap. -/
theorem C2_collection_cap (maxA : ℕ) (cats : List (List (Option NewsArticle))) :
    (scrape_all_categories maxA cats.length cats ([] : List NewsArticle)).length ≤ maxA ∧
    scrape_all_categories maxA cats.length cats ([] : List NewsArticle) =
      scrapeAllSpec maxA cats.length cats [] := by
  have hN : cats.length * (maxA / cats.length) ≤ maxA := by
    calc cats.length * (maxA / cats.length)
        = maxA / cats.length * cats.length := Nat.mul_comm _ _
      _ ≤ maxA := Nat.div_mul_le_self _ _
  constructor
  · have := scrape_all_length_le maxA cats.length cats ([] : List NewsArticle)
    simp only [List.length_nil, Nat.zero_add] at this
    omega
  · exact scrape_all_eq_spec_aux maxA cats.length hN cats [] (by simp)

theorem mem_dedupAux (r : TaggedRow) (l : List TaggedRow) :
    ∀ seen : List (String × String),
      r ∈ dedupAux seen l ↔
        dkey r ∉ seen ∧ l.find? (fun x => decide (dkey x = dkey r)) = some r := by
  induction l with
  | nil => intro seen; simp [dedupAux]
  | cons x rest ih =>
    intro seen
    by_cases hx : dkey x ∈ seen
    · rw [show dedupAux seen (x :: rest) = dedupAux seen rest from by
        rw [dedupAux, if_pos hx]]
      by_cases hk : dkey x = dkey r
      · rw [List.find?_cons_of_pos _ (by simpa using hk)]
        rw [ih seen]
        constructor
        · rintro ⟨hns, -⟩; exact absurd (hk ▸ hx) hns
        · rintro ⟨hns, -⟩; exact absurd (hk ▸ hx) hns
      · rw [List.find?_cons_of_neg _ (by simpa using hk)]
        exact ih seen
    · rw [show dedupAux seen (x :: rest) = x :: dedupAux (dkey x :: seen) rest from by
        rw [dedupAux, if_neg hx]]
      rw [List.mem_cons, ih (dkey x :: seen)]
      by_cases hk : dkey x = dkey r
      · rw [List.find?_cons_of_pos _ (by simpa using hk)]
        constructor
        · rintro (rfl | ⟨hns, -⟩)
          · exact ⟨hk ▸ hx, rfl⟩
          · exact absurd (List.mem_cons_self _ _) (hk ▸ hns)
        · rintro ⟨hns, hxr⟩
          exact Or.inl (Option.some.inj hxr).symm
      · rw [List.find?_cons_of_neg _ (by simpa using hk)]
        constructor
        · rintro (rfl | ⟨hns, hf⟩)
          · exact absurd rfl hk
          · refine ⟨fun hc => hns (List.mem_cons_of_mem _ hc), hf⟩
        · rintro ⟨hns, hf⟩
          refine Or.inr ⟨?_, hf⟩
          intro hc
          rcases List.mem_cons.mp hc with he | hc'
          · exact hk he.symm
          · exact hns hc'

/-- C5: a row survives the merge's deduplication exactly when it is the
*first* row carrying its (headline, date) key in the concatenation of the
input datasets (in the order the datasets are supplied, provenance tag
included) — so on a key collision between two sources the earlier-supplied
source's row is retained and every later duplicate is discarded. -/
theorem C5_merge_keeps_first_seen (files : List (String × List Row)) (r : TaggedRow) :
    (r ∈ (merge_csv_files files).getD [] ↔
      (allRows files).find? (fun x => decide (dkey x = dkey r)) = some r) ∧
    (files ≠ [] → merge_csv_files files = some (drop_duplicates (allRows files))) := by
  constructor
  · cases files with
    | nil =>
      simp [merge_csv_files, allRows]
    | cons f fs =>
      rw [show merge_csv_files (f :: fs) = some (drop_duplicates (allRows (f :: fs))) from by
        rw [merge_csv_files, if_neg (by simp)]]
      show r ∈ drop_duplicates (allRows (f :: fs)) ↔ _
      rw [drop_duplicates, mem_dedupAux]
      simp
  · intro hne
    rw [merge_csv_files, if_neg (by simpa using hne)]

theorem seenList_spec (k : String × String) (l : List TaggedRow) :
    ∀ seen : List (String × String),
      (k ∈ l.foldl (fun s x => if dkey x ∈ s then s else dkey x :: s) seen ↔
        k ∈ seen ∨ ∃ x ∈ l, dkey x = k) := by
  induction l with
  | nil => intro seen; simp
  | cons x rest ih =>
    intro seen
    rw [List.foldl_cons]
    by_cases hx : dkey x ∈ seen
    · rw [if_pos hx, ih]
      constructor
      · rintro (hs | hr)
        · exact Or.inl hs
        · exact Or.inr (by rcases hr with ⟨y, hy, hk⟩; exact ⟨y, List.mem_cons_of_mem _ hy, hk⟩)
      · rintro (hs | ⟨y, hy, hk⟩)
        · exact Or.inl hs
        · rcases List.mem_cons.mp hy with rfl | hy'
          · exact Or.inl (hk ▸ hx)
          · exact Or.inr ⟨y, hy', hk⟩
    · rw [if_neg hx, ih]
      simp only [List.mem_cons]
      constructor
      · rintro ((rfl | hs) | ⟨y, hy, hk⟩)
        · exact Or.inr ⟨x, Or.inl rfl, rfl⟩
        · exact Or.inl hs
        · exact Or.inr ⟨y, Or.inr hy, hk⟩
      · rintro (hs | ⟨y, rfl | hy', hk⟩)
        · exact Or.inl (Or.inr hs)
        · exact Or.inl (Or.inl hk.symm)
        · exact Or.inr ⟨y, hy', hk⟩

theorem dedupAux_append (X Y : List TaggedRow) :
    ∀ seen : List (String × String),
      dedupAux seen (X ++ Y) =
        dedupAux seen X ++
          dedupAux (X.foldl (fun s x => if dkey x ∈ s then s else dkey x :: s) seen) Y := by
  induction X with
  | nil => intro seen; simp [dedupAux]
  | cons x rest ih =>
    intro seen
    rw [List.cons_append, List.foldl_cons]
    by_cases hx : dkey x ∈ seen
    · rw [show dedupAux seen (x :: (rest ++ Y)) = dedupAux seen (rest ++ Y) from by
        rw [dedupAux, if_pos hx]]
      rw [show dedupAux seen (x :: rest) = dedupAux seen rest from by
        rw [dedupAux, if_pos hx]]
      rw [if_pos hx]
      exact ih seen
    · rw [show dedupAux seen (x :: (rest ++ Y)) =
          x :: dedupAux (dkey x :: seen) (rest ++ Y) from by
        rw [dedupAux, if_neg hx]]
      rw [show dedupAux seen (x :: rest) = x :: dedupAux (dkey x :: seen) rest from by
        rw [dedupAux, if_neg hx]]
      rw [if_neg hx, List.cons_append, ih (dkey x :: seen)]

theorem dedupAux_nil_of_seen (Y : List TaggedRow) :
    ∀ seen : List (String × String),
      (∀ y ∈ Y, dkey y ∈ seen) → dedupAux seen Y = [] := by
  induction Y with
  | nil => intro seen _; rfl
  | cons y rest ih =>
    intro seen hall
    rw [dedupAux, if_pos (hall y (List.mem_cons_self _ _))]
    exact ih seen fun z hz => hall z (List.mem_cons_of_mem _ hz)

/-- C6: the merge is idempotent with respect to duplicating its input —
merging `[A, A]` (under any pair of provenance tags) produces exactly as
many records as merging `[A]` alone. -/
theorem C6_merge_idempotent (n1 n2 : String) (A : List Row) :
    ((merge_csv_files [(n1, A), (n2, A)]).getD []).length =
      ((merge_csv_files [(n1, A)]).getD []).length := by
  have h2 : merge_csv_files [(n1, A), (n2, A)] =
      some (drop_duplicates (tagRows n1 A ++ tagRows n2 A)) := by
    rw [merge_csv_files, if_neg (by simp)]
    simp [allRows]
  have h1 : merge_csv_files [(n1, A)] = some (drop_duplicates (tagRows n1 A)) := by
    rw [merge_csv_files, if_neg (by simp)]
    simp [allRows]
  rw [h1, h2]
  simp only [Option.getD_some]
  rw [drop_duplicates, drop_duplicates, dedupAux_append]
  have hz : dedupAux
      (List.foldl (fun s x => if dkey x ∈ s then s else dkey x :: s) [] (tagRows n1 A))
      (tagRows n2 A) = [] := by
    apply dedupAux_nil_of_seen
    intro y hy
    simp only [tagRows, List.mem_map] at hy
    rcases hy with ⟨q, hq, rfl⟩
    rw [seenList_spec]
    refine Or.inr ⟨TaggedRow.mk q.headline q.date q.content n1, ?_, rfl⟩
    simp only [tagRows, List.mem_map]
    exact ⟨q, hq, rfl⟩
  rw [hz]
  simp

theorem infix_append_cases {α : Type} {p a b : List α} (h : p <:+: a ++ b) :
    p <:+: a ∨ p <:+: b ∨
      ∃ p1 p2, p = p1 ++ p2 ∧ p1 ≠ [] ∧ p2 ≠ [] ∧ p1 <:+ a ∧ p2 <+: b := by
  obtain ⟨s, t, hst⟩ := h
  rw [List.append_assoc] at hst
  rcases List.append_eq_append_iff.mp hst with ⟨a', ha, hpt⟩ | ⟨c', -, hb⟩
  · rcases List.append_eq_append_iff.mp hpt with ⟨w, ha', -⟩ | ⟨w, hp, hb'⟩
    · left
      exact ⟨s, w, by rw [ha, ha', List.append_assoc]⟩
    · cases a' with
      | nil =>
        right; left
        refine ⟨[], t, ?_⟩
        simp only [List.nil_append] at hp ⊢
        rw [← hp] at hb'
        exact hb'.symm
      | cons x xs =>
        cases w with
        | nil =>
          left
          refine ⟨s, [], ?_⟩
          rw [List.append_nil] at hp
          rw [← hp] at ha
          rw [ha]
          simp
        | cons y ys =>
          right; right
          exact ⟨x :: xs, y :: ys, hp, by simp, by simp,
            ⟨s, ha.symm⟩, ⟨t, hb'.symm⟩⟩
  · right; left
    exact ⟨c', t, by rw [hb, List.append_assoc]⟩

theorem noCross_spec {p A H : List Char} (hnc : noCross p A = true)
    (h : p <:+: A ++ H) : p <:+: H := by
  rw [noCross, Bool.and_eq_true] at hnc
  obtain ⟨hA, hall⟩ := hnc
  rcases infix_append_cases h with h1 | h1 | ⟨p1, p2, hpe, hp1, hp2, hs, -⟩
  · exfalso
    rw [(infixB_iff p A).mpr h1] at hA
    cases hA
  · exact h1
  · exfalso
    have hk1 : p.take p1.length = p1 := by rw [hpe]; exact List.take_left _ _
    have hklt : p1.length < p.length := by
      rw [hpe, List.length_append]
      have := List.length_pos.mpr hp2
      omega
    have hmem : p1.length ∈ List.range p.length := List.mem_range.mpr hklt
    have := List.all_eq_true.mp hall p1.length hmem
    rw [Bool.or_eq_true] at this
    rcases this with h0 | hsuf
    · have : p1.length = 0 := by simpa using h0
      exact hp1 (List.length_eq_zero.mp this)
    · rw [hk1] at hsuf
      rw [show p1.isSuffixOf A = true from by
        rw [ List.isSuffixOf_iff_suffix]; exact hs] at hsuf
      cases hsuf

theorem toLowerStr_append (a b : String) :
    (toLowerStr (a ++ b)).data = (toLowerStr a).data ++ (toLowerStr b).data := by
  simp [toLowerStr]

theorem infixB_false_append {p A T : List Char}
    (hnc : noCross p A = true) (hT : infixB p T = false) :
    infixB p (A ++ T) = false := by
  cases hc : infixB p (A ++ T)
  · rfl
  · exfalso
    have h3 := noCross_spec hnc ((infixB_iff _ _).mp hc)
    rw [(infixB_iff p T).mpr h3] at hT
    cases hT

theorem infixB_false_cons {p : List Char} {c : Char} {T : List Char}
    (h : infixB p (c :: T) = false) : infixB p T = false := by
  cases hc : infixB p T
  · rfl
  · exfalso
    have h2 : p <:+: c :: T := List.infix_cons ((infixB_iff _ _).mp hc)
    rw [(infixB_iff _ _).mpr h2] at h
    cases h

theorem valid_urljoin (href : String) (h : is_valid_article_url href = true) :
    is_valid_article_url (urljoin base_url href) = true := by
  have hall : ∀ p ∈ invalid_patterns, isSubstr p (toLowerStr href) = false := by
    have h2 := h
    rw [is_valid_article_url, Bool.not_eq_true', List.any_eq_false] at h2
    intro p hp
    have := h2 p hp
    simpa using this
  rw [urljoin]
  split
  · exact h
  · split
    · rename_i hhead
      obtain ⟨t, ht⟩ : ∃ t, href.data = '/' :: t := by
        cases hd : href.data with
        | nil => rw [hd] at hhead; simp at hhead
        | cons c t =>
          rw [hd] at hhead
          have hc : c = '/' := by simpa using hhead
          subst hc
          exact ⟨t, rfl⟩
      rw [is_valid_article_url, Bool.not_eq_true', List.any_eq_false]
      intro p hp
      have hT := hall p hp
      simp only [Bool.not_eq_true]
      have hdata : (toLowerStr (base_url ++ href)).data
          = ((toLowerStr base_url).data ++ ['/']) ++ t.map Char.toLower := by
        simp [toLowerStr, ht, show Char.toLower '/' = '/' from rfl]
      have hhrefdata : (toLowerStr href).data = '/' :: t.map Char.toLower := by
        simp [toLowerStr, ht, show Char.toLower '/' = '/' from rfl]
      rw [show isSubstr p (toLowerStr (base_url ++ href))
            = infixB p.data (((toLowerStr base_url).data ++ ['/']) ++ t.map Char.toLower)
          from by rw [isSubstr, hdata]]
      apply infixB_false_append
      · have hnc : invalid_patterns.all
            (fun q => noCross q.data ((toLowerStr base_url).data ++ ['/'])) = true := by
          decide
        exact List.all_eq_true.mp hnc p hp
      · have hcons : infixB p.data ('/' :: t.map Char.toLower) = false := by
          rw [show infixB p.data ('/' :: t.map Char.toLower)
                = isSubstr p (toLowerStr href) from by rw [isSubstr, hhrefdata]]
          exact hT
        exact infixB_false_cons hcons
    · rw [is_valid_article_url, Bool.not_eq_true', List.any_eq_false]
      intro p hp
      have hT := hall p hp
      simp only [Bool.not_eq_true]
      rw [show isSubstr p (toLowerStr (base_url ++ "/" ++ href))
            = infixB p.data ((toLowerStr (base_url ++ "/")).data ++ (toLowerStr href).data)
          from by rw [isSubstr, toLowerStr_append]]
      apply infixB_false_append
      · have hnc : invalid_patterns.all
            (fun q => noCross q.data (toLowerStr (base_url ++ "/")).data) = true := by
          decide
        exact List.all_eq_true.mp hnc p hp
      · exact hT

theorem collectLinks_nodup (hrefs : List (Option String)) :
    ∀ acc : List String, acc.Nodup → (collectLinks hrefs acc).Nodup := by
  induction hrefs with
  | nil => intro acc h; exact h
  | cons o rest ih =>
    intro acc h
    cases o with
    | none => exact ih acc h
    | some href =>
      show (if is_valid_article_url href then _ else _ : List String).Nodup
      split
      · by_cases hmem : urljoin base_url href ∈ acc
        · rw [if_pos hmem]; exact ih acc h
        · rw [if_neg hmem]
          apply ih
          rw [List.nodup_append]
          refine ⟨h, List.nodup_singleton _, ?_⟩
          intro x hx hx1
          rcases List.mem_singleton.mp hx1 with rfl
          exact hmem hx
      · exact ih acc h

theorem collectLinks_valid (hrefs : List (Option String)) :
    ∀ acc : List String, (∀ u ∈ acc, is_valid_article_url u = true) →
      ∀ u ∈ collectLinks hrefs acc, is_valid_article_url u = true := by
  induction hrefs with
  | nil => intro acc h; exact h
  | cons o rest ih =>
    intro acc h
    cases o with
    | none => exact ih acc h
    | some href =>
      show ∀ u ∈ (if is_valid_article_url href then _ else _ : List String), _
      split
      · rename_i hvalid
        split
        · exact ih acc h
        · apply ih
          intro u hu
          rcases List.mem_append.mp hu with hu' | hu'
          · exact h u hu'
          · rcases List.mem_singleton.mp hu' with rfl
            exact valid_urljoin href hvalid
      · exact ih acc h

/-- C10: the list produced by link extraction holds pairwise-distinct URLs,
every one of which passes the blocked-substring filter (no `javascript:`,
`mailto:`, `tel:`, `#`, or social-network host occurs in it,
case-insensitively) — in particular an otherwise valid article href carrying
a `#` fragment contributes nothing. -/
theorem C10_links_distinct_and_valid (maxA nCats : ℕ) (hrefs : List (Option String)) :
    (extract_article_links maxA nCats hrefs).Nodup ∧
    (extract_article_links maxA nCats hrefs).all is_valid_article_url = true ∧
    extract_article_links 100 9 [some "/news/kerala/story.html#c"] = [] := by
  refine ⟨?_, ?_, by decide⟩
  · exact (List.take_sublist _ _).nodup (collectLinks_nodup hrefs [] (by simp))
  · rw [List.all_eq_true]
    intro u hu
    have hu' : u ∈ collectLinks hrefs [] :=
      (List.take_sublist _ _).subset hu
    exact collectLinks_valid hrefs [] (by simp) u hu'

end Scraper
